import Mathlib

/-!
Verification development for the Shadow/Highlights tonal-correction engine
(ColorConverter, LabImageProcessor, ShadowHighlightsFilter).

The C++ code is shallowly embedded over exact rationals: `cv::Mat` becomes a
structure carrying dimensions, a channel count and a total data function;
machine floats become `ℚ`; throwing `std::invalid_argument` becomes returning
`Except.error Err.invalidInput` (so an error, by construction, carries no
partial result).  The C library transcendentals `powf` and `expf` have no
exact rational counterpart; they enter the pipeline only through explicit
function parameters `pw : ℚ → ℚ → ℚ` and `ex : ℚ → ℚ`, and every theorem
below quantifies over them, adding only the hypotheses it states (for the
mask theorems, nonnegativity of `ex`, which the true `expf` satisfies).
No theorem in this file depends on the numeric values of `pw` or `ex`.
-/

/-- Truncation toward zero, the semantics of C++ `static_cast<int>` on a
finite nonnegative-or-negative float value. -/
def truncToInt (q : ℚ) : ℤ :=
  if q < 0 then -(⌊-q⌋) else ⌊q⌋

/-- Model of `cv::Mat`: dimensions, channel count and a total data function
(indexed row, column, channel).  Out-of-range reads, undefined behaviour in
the C++ source, read the total function. -/
structure Mat where
  rows : ℕ
  cols : ℕ
  channels : ℕ
  data : ℕ → ℕ → ℕ → ℚ

/-- Model of `mat.at<float>(y, x)`: the channel-0 float value. -/
def Mat.px (m : Mat) (y x : ℕ) : ℚ := m.data y x 0

/-- Model of `cv::Mat::empty()`: true when the matrix has no pixels. -/
def Mat.empty (m : Mat) : Bool := m.rows == 0 || m.cols == 0

/-- The all-zero 0×0 matrix, used as the default for list lookups. -/
def Mat.matZero : Mat := ⟨0, 0, 0, fun _ _ _ => 0⟩

/-- Model of the in-place `mat /= c` (every entry divided by a scalar). -/
def Mat.divScalar (m : Mat) (c : ℚ) : Mat :=
  ⟨m.rows, m.cols, m.channels, fun y x ch => m.data y x ch / c⟩

/-- The channel-0 values of a matrix, in row-major order; the value set that
`cv::minMaxLoc` scans. -/
def matVals (m : Mat) : List ℚ :=
  (List.range (m.rows * m.cols)).map fun i => m.px (i / m.cols) (i % m.cols)

/-- Maximum of a list of rationals (`0` for the empty list, which
`cv::minMaxLoc` rejects; every use below is guarded by nonnegative values). -/
def listMax : List ℚ → ℚ
  | [] => 0
  | a :: t => t.foldl max a

/-- Model of the `maxVal` output of `cv::minMaxLoc`. -/
def matMax (m : Mat) : ℚ := listMax (matVals m)

/-- Component access of a `cv::Vec3f`/`cv::Vec3b` triple. -/
def vec3At (v : ℚ × ℚ × ℚ) : ℕ → ℚ
  | 0 => v.1
  | 1 => v.2.1
  | 2 => v.2.2
  | _ + 3 => 0

/-- The error kind of the engine: every `throw std::invalid_argument` in the
source raises this. -/
inductive Err where
  | invalidInput
deriving DecidableEq, Repr

/-- Model of `ShadowHighlightsFilter`'s four configuration fields. -/
structure ShadowHighlightsFilter where
  shadowAmount : ℚ
  highlightAmount : ℚ
  tonalWidth : ℚ
  blurRadius : ℚ

/-- Model of the `ShadowHighlightsFilter(shadows, highlights, width, radius)`
constructor, which clamps each argument independently. -/
def mkShadowHighlightsFilter (shadows highlights width radius : ℚ) :
    ShadowHighlightsFilter :=
  ⟨max 0 (min 1 shadows), max 0 (min 1 highlights),
   max 0 (min 1 width), max 0 (min 50 radius)⟩

/-- Model of `setShadowAmount`. -/
def ShadowHighlightsFilter.setShadowAmount (f : ShadowHighlightsFilter)
    (amount : ℚ) : ShadowHighlightsFilter :=
  { f with shadowAmount := max 0 (min 1 amount) }

/-- Model of `setHighlightAmount`. -/
def ShadowHighlightsFilter.setHighlightAmount (f : ShadowHighlightsFilter)
    (amount : ℚ) : ShadowHighlightsFilter :=
  { f with highlightAmount := max 0 (min 1 amount) }

/-- Model of `setTonalWidth`. -/
def ShadowHighlightsFilter.setTonalWidth (f : ShadowHighlightsFilter)
    (width : ℚ) : ShadowHighlightsFilter :=
  { f with tonalWidth := max 0 (min 1 width) }

/-- Model of `setBlurRadius`. -/
def ShadowHighlightsFilter.setBlurRadius (f : ShadowHighlightsFilter)
    (radius : ℚ) : ShadowHighlightsFilter :=
  { f with blurRadius := max 0 (min 50 radius) }

/-- The documented range invariant of the filter configuration:
`shadowAmount`, `highlightAmount`, `tonalWidth` in `[0,1]` and `blurRadius`
in `[0,50]`. -/
def ShadowHighlightsFilter.valid (f : ShadowHighlightsFilter) : Prop :=
  0 ≤ f.shadowAmount ∧ f.shadowAmount ≤ 1 ∧
  0 ≤ f.highlightAmount ∧ f.highlightAmount ≤ 1 ∧
  0 ≤ f.tonalWidth ∧ f.tonalWidth ≤ 1 ∧
  0 ≤ f.blurRadius ∧ f.blurRadius ≤ 50

theorem clamp01_mem (x : ℚ) : 0 ≤ max 0 (min 1 x) ∧ max 0 (min 1 x) ≤ 1 := by
  refine ⟨le_max_left 0 _, ?_⟩
  simp only [max_def, min_def]
  split_ifs <;> linarith

theorem clamp50_mem (x : ℚ) : 0 ≤ max 0 (min 50 x) ∧ max 0 (min 50 x) ≤ 50 := by
  refine ⟨le_max_left 0 _, ?_⟩
  simp only [max_def, min_def]
  split_ifs <;> linarith

/-- C2: the constructor and every setter clamp their argument, so the
configuration invariant (`shadowAmount`, `highlightAmount`, `tonalWidth` in
`[0,1]`, `blurRadius` in `[0,50]`) holds after construction with any
arguments and is preserved by every setter with any argument; out-of-range
arguments are silently clamped, never rejected — in particular constructing
with `shadows = 5` yields `shadowAmount = 1` and constructing with
`radius = -10` yields `blurRadius = 0`. -/
theorem filter_config_always_clamped :
    (∀ s h w r : ℚ, (mkShadowHighlightsFilter s h w r).valid) ∧
    (∀ (f : ShadowHighlightsFilter) (a : ℚ), f.valid →
      (f.setShadowAmount a).valid ∧ (f.setHighlightAmount a).valid ∧
      (f.setTonalWidth a).valid ∧ (f.setBlurRadius a).valid) ∧
    (∀ h w r : ℚ, (mkShadowHighlightsFilter 5 h w r).shadowAmount = 1) ∧
    (∀ s h w : ℚ, (mkShadowHighlightsFilter s h w (-10)).blurRadius = 0) := by
  refine ⟨?_, ?_, ?_, ?_⟩
  · intro s h w r
    exact ⟨(clamp01_mem s).1, (clamp01_mem s).2, (clamp01_mem h).1, (clamp01_mem h).2,
      (clamp01_mem w).1, (clamp01_mem w).2, (clamp50_mem r).1, (clamp50_mem r).2⟩
  · intro f a hf
    obtain ⟨h1, h2, h3, h4, h5, h6, h7, h8⟩ := hf
    refine ⟨⟨(clamp01_mem a).1, (clamp01_mem a).2, h3, h4, h5, h6, h7, h8⟩,
      ⟨h1, h2, (clamp01_mem a).1, (clamp01_mem a).2, h5, h6, h7, h8⟩,
      ⟨h1, h2, h3, h4, (clamp01_mem a).1, (clamp01_mem a).2, h7, h8⟩,
      ⟨h1, h2, h3, h4, h5, h6, (clamp50_mem a).1, (clamp50_mem a).2⟩⟩
  · intro h w r
    simp [mkShadowHighlightsFilter]
  · intro s h w
    simp [mkShadowHighlightsFilter]

/-- Witness for `filter_config_always_clamped`: the setter clauses carry the
`valid` hypothesis; discharge it at a concretely constructed filter. -/
theorem filter_config_always_clamped_witness :
    (mkShadowHighlightsFilter 0.3 0.3 0.5 15).valid ∧
    ((mkShadowHighlightsFilter 0.3 0.3 0.5 15).setShadowAmount 2).valid := by
  have h := filter_config_always_clamped
  have hv : (mkShadowHighlightsFilter 0.3 0.3 0.5 15).valid := h.1 0.3 0.3 0.5 15
  exact ⟨hv, (h.2.1 (mkShadowHighlightsFilter 0.3 0.3 0.5 15) 2 hv).1⟩

namespace ColorConverter

/-- Model of `ColorConverter::RGB2XYZ` (sRGB inverse gamma, then the fixed
RGB→XYZ matrix, then white-point normalization); `pw` stands for `powf`. -/
def RGB2XYZ (pw : ℚ → ℚ → ℚ) (r g b : ℚ) : ℚ × ℚ × ℚ :=
  let r := if 0.04045 < r then pw ((r + 0.055) / 1.055) 2.4 else r / 12.92
  let g := if 0.04045 < g then pw ((g + 0.055) / 1.055) 2.4 else g / 12.92
  let b := if 0.04045 < b then pw ((b + 0.055) / 1.055) 2.4 else b / 12.92
  let x := r * 0.4124564 + g * 0.3575761 + b * 0.1804375
  let y := r * 0.2126729 + g * 0.7151522 + b * 0.0721750
  let z := r * 0.0193339 + g * 0.1191920 + b * 0.9503041
  (x / 0.95047, y / 1.00000, z / 1.08883)

/-- Model of the CIE `f` lambda inside `ColorConverter::XYZ2Lab`. -/
def labF (pw : ℚ → ℚ → ℚ) (t : ℚ) : ℚ :=
  let delta : ℚ := 6 / 29
  if pw delta 3 < t then pw t (1 / 3)
  else t / (3 * delta * delta) + 4 / 29

/-- Model of `ColorConverter::XYZ2Lab`, including the project-specific
rescaling of `L` by `255/100` and the `+128` offsets of `a`, `b`. -/
def XYZ2Lab (pw : ℚ → ℚ → ℚ) (x y z : ℚ) : ℚ × ℚ × ℚ :=
  let xn : ℚ := 0.95047
  let yn : ℚ := 1.00000
  let zn : ℚ := 1.08883
  let l := 116 * labF pw (y / yn) - 16
  let a := 500 * (labF pw (x / xn) - labF pw (y / yn))
  let b := 200 * (labF pw (y / yn) - labF pw (z / zn))
  (l * 255 / 100, a + 128, b + 128)

/-- Model of the `f_inv` lambda inside `ColorConverter::Lab2XYZ`. -/
def labFinv (t : ℚ) : ℚ :=
  let delta : ℚ := 6 / 29
  if delta < t then t * t * t
  else 3 * delta * delta * (t - 4 / 29)

/-- Model of `ColorConverter::Lab2XYZ` (undoes the encoding, inverts the CIE
nonlinearity, multiplies by the white point); purely rational. -/
def Lab2XYZ (l a b : ℚ) : ℚ × ℚ × ℚ :=
  let l := l * 100 / 255
  let a := a - 128
  let b := b - 128
  let xn : ℚ := 0.95047
  let yn : ℚ := 1.00000
  let zn : ℚ := 1.08883
  let fy := (l + 16) / 116
  let fx := fy + a / 500
  let fz := fy - b / 200
  (xn * labFinv fx, yn * labFinv fy, zn * labFinv fz)

/-- Model of `ColorConverter::XYZ2RGB` (XYZ→RGB matrix, sRGB forward gamma,
clamp of each channel to `[0,1]`); `pw` stands for `powf`. -/
def XYZ2RGB (pw : ℚ → ℚ → ℚ) (x y z : ℚ) : ℚ × ℚ × ℚ :=
  let x := x * 0.95047
  let y := y * 1.00000
  let z := z * 1.08883
  let r := x * 3.2404542 + y * (-1.5371385) + z * (-0.4985314)
  let g := x * (-0.9692660) + y * 1.8760108 + z * 0.0415560
  let b := x * 0.0556434 + y * (-0.2040259) + z * 1.0572252
  let r := if 0.0031308 < r then 1.055 * pw r (1 / 2.4) - 0.055 else 12.92 * r
  let g := if 0.0031308 < g then 1.055 * pw g (1 / 2.4) - 0.055 else 12.92 * g
  let b := if 0.0031308 < b then 1.055 * pw b (1 / 2.4) - 0.055 else 12.92 * b
  (max 0 (min 1 r), max 0 (min 1 g), max 0 (min 1 b))

/-- Model of `ColorConverter::saturate_cast`: truncate to int (toward zero)
and clamp to `[0,255]`. -/
def saturate_cast (value : ℚ) : ℚ :=
  let ivalue := truncToInt value
  ((if ivalue < 0 then 0 else if 255 < ivalue then 255 else ivalue : ℤ) : ℚ)

/-- Model of `ColorConverter::BGR2Lab`: per pixel, normalize the 8-bit BGR
channels to `[0,1]`, convert through XYZ to Lab; output is a 3-channel float
image of the same dimensions. -/
def BGR2Lab (pw : ℚ → ℚ → ℚ) (bgrImage : Mat) : Mat :=
  ⟨bgrImage.rows, bgrImage.cols, 3, fun y x c =>
    let b := bgrImage.data y x 0 / 255
    let g := bgrImage.data y x 1 / 255
    let r := bgrImage.data y x 2 / 255
    let xyz := RGB2XYZ pw r g b
    vec3At (XYZ2Lab pw xyz.1 xyz.2.1 xyz.2.2) c⟩

/-- Model of `ColorConverter::Lab2BGR`: per pixel, convert Lab through XYZ to
RGB, scale to `[0,255]` and `saturate_cast` each channel; output is a
3-channel 8-bit image of the same dimensions, stored in BGR order. -/
def Lab2BGR (pw : ℚ → ℚ → ℚ) (labImage : Mat) : Mat :=
  ⟨labImage.rows, labImage.cols, 3, fun y x c =>
    let xyz := Lab2XYZ (labImage.data y x 0) (labImage.data y x 1) (labImage.data y x 2)
    let rgb := XYZ2RGB pw xyz.1 xyz.2.1 xyz.2.2
    vec3At (saturate_cast (rgb.2.2 * 255), saturate_cast (rgb.2.1 * 255),
      saturate_cast (rgb.1 * 255)) c⟩

end ColorConverter

namespace LabImageProcessor

/-- Model of `LabImageProcessor::splitLab`: fails when the image does not
have exactly 3 channels, otherwise returns the three single-channel planes
L, a, b (each a copy of one source channel). -/
def splitLab (labImage : Mat) : Except Err (List Mat) :=
  if labImage.channels ≠ 3 then .error .invalidInput
  else .ok
    [⟨labImage.rows, labImage.cols, 1, fun y x _ => labImage.data y x 0⟩,
     ⟨labImage.rows, labImage.cols, 1, fun y x _ => labImage.data y x 1⟩,
     ⟨labImage.rows, labImage.cols, 1, fun y x _ => labImage.data y x 2⟩]

/-- Model of `LabImageProcessor::mergeLab`: fails when the number of planes
is not exactly 3, otherwise builds a 3-channel image sized as the first
plane, reading each plane's channel-0 data (the source performs no size
check; an undersized later plane is read out of bounds in C++, which the
total data functions model as reads of the plane's data function). -/
def mergeLab (channels : List Mat) : Except Err Mat :=
  if channels.length ≠ 3 then .error .invalidInput
  else .ok
    ⟨(channels.headD Mat.matZero).rows, (channels.headD Mat.matZero).cols, 3,
     fun y x c => (channels.getD c Mat.matZero).px y x⟩

end LabImageProcessor

/-- The per-pixel body of the loop in
`ShadowHighlightsFilter::createAdvancedShadowMask`: 1 below `0.3` of the
shadow threshold, a quadratic falloff `1 - t^2` up to the threshold, 0
above it. -/
def shadowMaskPixel (tonalWidth lum : ℚ) : ℚ :=
  let shadowThreshold := 0.5 * tonalWidth
  if lum ≤ shadowThreshold * 0.3 then 1
  else if lum ≤ shadowThreshold then
    let t := (lum - shadowThreshold * 0.3) / (shadowThreshold * 0.7)
    1 - t * t
  else 0

/-- The per-pixel body of the loop in
`ShadowHighlightsFilter::createAdvancedHighlightMask`: 1 above the highlight
threshold, a linear ramp from `0.9` of the threshold up to it, 0 below. -/
def highlightMaskPixel (tonalWidth lum : ℚ) : ℚ :=
  let highlightThreshold := 1 - 0.5 * tonalWidth
  if highlightThreshold ≤ lum then 1
  else if highlightThreshold * 0.9 ≤ lum then
    (lum - highlightThreshold * 0.9) / (highlightThreshold * 0.1)
  else 0

namespace ShadowHighlightsFilter

/-- Model of `ShadowHighlightsFilter::createGaussianKernel`: a `size×size`
matrix of `exp(-(dx^2+dy^2)/(2 sigma^2))` values relative to the center,
normalized in place by the sum of all entries; `ex` stands for `expf`. -/
def createGaussianKernel (ex : ℚ → ℚ) (size : ℕ) (sigma : ℚ) : Mat :=
  let center : ℤ := (size : ℤ) / 2
  let raw : ℕ → ℕ → ℚ := fun y x =>
    let dx : ℚ := ((x : ℤ) - center : ℤ)
    let dy : ℚ := ((y : ℤ) - center : ℤ)
    ex (-(dx * dx + dy * dy) / (2 * sigma * sigma))
  let sum := ∑ y ∈ Finset.range size, ∑ x ∈ Finset.range size, raw y x
  ⟨size, size, 1, fun y x _ => raw y x / sum⟩

/-- The `sum` accumulator of the kernel loop in
`ShadowHighlightsFilter::applyConvolution`: pixel·weight summed over the
kernel window, skipping samples that fall outside the plane bounds. -/
def convPixSum (input kernel : Mat) (y x : ℕ) : ℚ :=
  let kernelRadius := kernel.rows / 2
  ∑ ky ∈ Finset.range (2 * kernelRadius + 1),
    ∑ kx ∈ Finset.range (2 * kernelRadius + 1),
      let srcY : ℤ := (y : ℤ) + (ky : ℤ) - (kernelRadius : ℤ)
      let srcX : ℤ := (x : ℤ) + (kx : ℤ) - (kernelRadius : ℤ)
      if 0 ≤ srcY ∧ srcY < (input.rows : ℤ) ∧ 0 ≤ srcX ∧ srcX < (input.cols : ℤ) then
        input.px srcY.toNat srcX.toNat * kernel.px ky kx
      else 0

/-- The `weightSum` accumulator of the kernel loop in
`ShadowHighlightsFilter::applyConvolution`: the weights of the in-bounds
samples only. -/
def convWeightSum (input kernel : Mat) (y x : ℕ) : ℚ :=
  let kernelRadius := kernel.rows / 2
  ∑ ky ∈ Finset.range (2 * kernelRadius + 1),
    ∑ kx ∈ Finset.range (2 * kernelRadius + 1),
      let srcY : ℤ := (y : ℤ) + (ky : ℤ) - (kernelRadius : ℤ)
      let srcX : ℤ := (x : ℤ) + (kx : ℤ) - (kernelRadius : ℤ)
      if 0 ≤ srcY ∧ srcY < (input.rows : ℤ) ∧ 0 ≤ srcX ∧ srcX < (input.cols : ℤ) then
        kernel.px ky kx
      else 0

/-- Model of `ShadowHighlightsFilter::applyConvolution`: per output pixel,
the in-bounds weighted sum divided by the in-bounds weight sum; if the
in-bounds weight sum is not positive, the original pixel value passes
through unchanged. -/
def applyConvolution (input kernel : Mat) : Mat :=
  ⟨input.rows, input.cols, input.channels, fun y x _ =>
    if 0 < convWeightSum input kernel y x then
      convPixSum input kernel y x / convWeightSum input kernel y x
    else input.px y x⟩

/-- Model of `ShadowHighlightsFilter::applyGaussianBlur`: radius below `0.1`
is a no-op; otherwise build a Gaussian kernel of size
`max(3, (int)(radius*2+1) | 1)` with `sigma = radius` and convolve. -/
def applyGaussianBlur (ex : ℚ → ℚ) (input : Mat) (radius : ℚ) : Mat :=
  if radius < 0.1 then input
  else
    let kernelSize := max 3 ((truncToInt (radius * 2 + 1)).toNat ||| 1)
    applyConvolution input (createGaussianKernel ex kernelSize radius)

/-- Model of `ShadowHighlightsFilter::applyFastGaussianBlur`: radius below
`1.0` is a no-op; otherwise 1 pass at the full radius (radius ≤ 8), 2 passes
at `radius/2` (radius ≤ 20) or 3 passes at `radius/3`, each pass feeding the
next. -/
def applyFastGaussianBlur (ex : ℚ → ℚ) (input : Mat) (radius : ℚ) : Mat :=
  if radius < 1 then input
  else
    let iterations : ℕ := if radius ≤ 8 then 1 else if radius ≤ 20 then 2 else 3
    let iterRadius : ℚ := if radius ≤ 8 then radius else if radius ≤ 20 then radius / 2 else radius / 3
    (fun m => applyGaussianBlur ex m iterRadius)^[iterations] input

/-- Model of `ShadowHighlightsFilter::createAdvancedShadowMask`: the
per-pixel smooth mask, optionally blurred with the fast Gaussian blur at
`min(blurRadius, 20)`, then renormalized in place by its maximum when that
maximum is positive. -/
def createAdvancedShadowMask (f : ShadowHighlightsFilter) (ex : ℚ → ℚ)
    (luminance : Mat) : Mat :=
  let smoothMask : Mat :=
    ⟨luminance.rows, luminance.cols, 1, fun y x _ =>
      shadowMaskPixel f.tonalWidth (luminance.px y x)⟩
  let smoothMask :=
    if 0.1 < f.blurRadius then
      applyFastGaussianBlur ex smoothMask (min f.blurRadius 20)
    else smoothMask
  let maxVal := matMax smoothMask
  if 0 < maxVal then smoothMask.divScalar maxVal else smoothMask

/-- Model of `ShadowHighlightsFilter::createAdvancedHighlightMask`, with the
same blur-and-renormalize finishing step as the shadow mask. -/
def createAdvancedHighlightMask (f : ShadowHighlightsFilter) (ex : ℚ → ℚ)
    (luminance : Mat) : Mat :=
  let smoothMask : Mat :=
    ⟨luminance.rows, luminance.cols, 1, fun y x _ =>
      highlightMaskPixel f.tonalWidth (luminance.px y x)⟩
  let smoothMask :=
    if 0.1 < f.blurRadius then
      applyFastGaussianBlur ex smoothMask (min f.blurRadius 20)
    else smoothMask
  let maxVal := matMax smoothMask
  if 0 < maxVal then smoothMask.divScalar maxVal else smoothMask

/-- Model of `ShadowHighlightsFilter::normalizeLuminance`: divide the L
plane by 255. -/
def normalizeLuminance (luminance : Mat) : Mat :=
  ⟨luminance.rows, luminance.cols, 1, fun y x _ => luminance.px y x / 255⟩

/-- Model of `ShadowHighlightsFilter::denormalizeLuminance`: multiply the
normalized L plane by 255. -/
def denormalizeLuminance (normalizedLuminance : Mat) : Mat :=
  ⟨normalizedLuminance.rows, normalizedLuminance.cols, 1, fun y x _ =>
    normalizedLuminance.px y x * 255⟩

/-- Model of `ShadowHighlightsFilter::applyAdvancedCorrection`: per pixel,
`corrected = lum + shadowAmount·shadow·(1-lum)·0.7 -
highlightAmount·highlight·lum·0.7`, clamped to the per-pixel dynamic range
`[lum·0.3, 1-(1-lum)·0.3]`. -/
def applyAdvancedCorrection (f : ShadowHighlightsFilter)
    (luminance shadowMask highlightMask : Mat) : Mat :=
  ⟨luminance.rows, luminance.cols, luminance.channels, fun y x _ =>
    let lum := luminance.px y x
    let shadow := shadowMask.px y x
    let highlight := highlightMask.px y x
    let shadowCorrection := f.shadowAmount * shadow * (1 - lum) * 0.7
    let highlightCorrection := f.highlightAmount * highlight * lum * 0.7
    let corrected := lum + shadowCorrection - highlightCorrection
    let minVal := lum * 0.3
    let maxVal := 1 - (1 - lum) * 0.3
    max minVal (min maxVal corrected)⟩

/-- Model of `ShadowHighlightsFilter::convertBackToBGR`: denormalize the
corrected luminance, replace the L plane, merge and convert back to BGR
(propagating a merge failure). -/
def convertBackToBGR (pw : ℚ → ℚ → ℚ) (correctedLuminance : Mat)
    (labChannels : List Mat) : Except Err Mat :=
  let denormalizedLuminance := denormalizeLuminance correctedLuminance
  match LabImageProcessor.mergeLab (labChannels.set 0 denormalizedLuminance) with
  | .error e => .error e
  | .ok resultLab => .ok (ColorConverter.Lab2BGR pw resultLab)

/-- Model of `ShadowHighlightsFilter::apply`: fail on an empty input, then
convert to Lab, split, normalize L, build the two masks, correct, and
convert back. -/
def apply (f : ShadowHighlightsFilter) (pw : ℚ → ℚ → ℚ) (ex : ℚ → ℚ)
    (inputImage : Mat) : Except Err Mat :=
  if inputImage.empty then .error .invalidInput
  else
    match LabImageProcessor.splitLab (ColorConverter.BGR2Lab pw inputImage) with
    | .error e => .error e
    | .ok labChannels =>
      let luminance := labChannels.headD Mat.matZero
      let luminanceFloat := normalizeLuminance luminance
      let shadowMask := f.createAdvancedShadowMask ex luminanceFloat
      let highlightMask := f.createAdvancedHighlightMask ex luminanceFloat
      let correctedLuminance :=
        f.applyAdvancedCorrection luminanceFloat shadowMask highlightMask
      convertBackToBGR pw correctedLuminance labChannels

end ShadowHighlightsFilter

theorem le_foldl_max (t : List ℚ) : ∀ b : ℚ,
    b ≤ t.foldl max b ∧ ∀ a ∈ t, a ≤ t.foldl max b := by
  induction t with
  | nil => intro b; exact ⟨le_refl b, by simp⟩
  | cons c t ih =>
    intro b
    have h := ih (max b c)
    refine ⟨le_trans (le_max_left b c) h.1, ?_⟩
    intro a ha
    rcases List.mem_cons.mp ha with rfl | ha
    · exact le_trans (le_max_right b a) h.1
    · exact h.2 a ha

theorem le_listMax {l : List ℚ} {a : ℚ} (h : a ∈ l) : a ≤ listMax l := by
  cases l with
  | nil => cases h
  | cons b t =>
    rcases List.mem_cons.mp h with rfl | h
    · exact (le_foldl_max t a).1
    · exact (le_foldl_max t b).2 a h

theorem foldl_max_map_div (c : ℚ) (hc : 0 < c) (t : List ℚ) : ∀ b : ℚ,
    (t.map (· / c)).foldl max (b / c) = t.foldl max b / c := by
  induction t with
  | nil => intro b; simp
  | cons d t ih =>
    intro b
    simp only [List.map_cons, List.foldl_cons]
    rw [max_div_div_right hc.le b d, ih]

theorem listMax_map_div (l : List ℚ) (c : ℚ) (hc : 0 < c) :
    listMax (l.map (· / c)) = listMax l / c := by
  cases l with
  | nil => simp [listMax]
  | cons b t => simpa [listMax] using foldl_max_map_div c hc t b

theorem mem_matVals (m : Mat) {y x : ℕ} (hy : y < m.rows) (hx : x < m.cols) :
    m.px y x ∈ matVals m := by
  have hc : 0 < m.cols := Nat.pos_of_ne_zero (by omega)
  refine List.mem_map.mpr ⟨x + m.cols * y, List.mem_range.mpr ?_, ?_⟩
  · calc x + m.cols * y < m.cols + m.cols * y := by omega
      _ = m.cols * (y + 1) := by ring
      _ ≤ m.cols * m.rows := Nat.mul_le_mul_left _ (by omega)
      _ = m.rows * m.cols := Nat.mul_comm _ _
  · rw [Nat.add_mul_div_left _ _ hc, Nat.div_eq_of_lt hx, Nat.zero_add,
      Nat.add_mul_mod_self_left, Nat.mod_eq_of_lt hx]

theorem matVals_divScalar (m : Mat) (c : ℚ) :
    matVals (m.divScalar c) = (matVals m).map (· / c) := by
  simp [matVals, Mat.divScalar, Mat.px, List.map_map, Function.comp]

theorem shadowMaskPixel_mem (w lum : ℚ) :
    0 ≤ shadowMaskPixel w lum ∧ shadowMaskPixel w lum ≤ 1 := by
  unfold shadowMaskPixel
  dsimp only
  split_ifs with h1 h2
  · norm_num
  · have hth : 0 < 0.5 * w * 0.7 := by nlinarith
    have hnum : 0 < lum - 0.5 * w * 0.3 := by linarith
    have ht0 : 0 ≤ (lum - 0.5 * w * 0.3) / (0.5 * w * 0.7) :=
      le_of_lt (div_pos hnum hth)
    have ht1 : (lum - 0.5 * w * 0.3) / (0.5 * w * 0.7) ≤ 1 :=
      (div_le_one hth).mpr (by linarith)
    constructor <;> nlinarith
  · norm_num

theorem highlightMaskPixel_mem (w lum : ℚ) :
    0 ≤ highlightMaskPixel w lum ∧ highlightMaskPixel w lum ≤ 1 := by
  unfold highlightMaskPixel
  dsimp only
  split_ifs with h1 h2
  · norm_num
  · have hth : 0 < (1 - 0.5 * w) * 0.1 := by nlinarith
    have hnum : 0 ≤ lum - (1 - 0.5 * w) * 0.9 := by linarith
    constructor
    · exact div_nonneg hnum hth.le
    · exact le_of_lt ((div_lt_one hth).mpr (by linarith))
  · norm_num

/-- C9: for any fixed tonalWidth in `[0,1]`, the per-pixel shadow-mask value
computed by `createAdvancedShadowMask` is non-increasing and the per-pixel
highlight-mask value computed by `createAdvancedHighlightMask` is
non-decreasing in the pixel's luminance over `[0,1]`. -/
theorem mask_pixel_monotone (w lum1 lum2 : ℚ)
    (hw0 : 0 ≤ w) (hw1 : w ≤ 1) (h10 : 0 ≤ lum1) (h12 : lum1 ≤ lum2) (h21 : lum2 ≤ 1) :
    shadowMaskPixel w lum2 ≤ shadowMaskPixel w lum1 ∧
    highlightMaskPixel w lum1 ≤ highlightMaskPixel w lum2 := by
  constructor
  · unfold shadowMaskPixel
    dsimp only
    split_ifs with c1 c2 c3 c4 c5 c6 c7 c8 <;> try linarith
    · have hth : (0:ℚ) < 0.5 * w * 0.7 := by linarith
      have := mul_self_nonneg ((lum2 - 0.5 * w * 0.3) / (0.5 * w * 0.7))
      linarith
    · have hth : (0:ℚ) < 0.5 * w * 0.7 := by linarith
      have ht1 : 0 ≤ (lum1 - 0.5 * w * 0.3) / (0.5 * w * 0.7) :=
        le_of_lt (div_pos (by linarith) hth)
      have hd : (lum1 - 0.5 * w * 0.3) / (0.5 * w * 0.7) ≤
          (lum2 - 0.5 * w * 0.3) / (0.5 * w * 0.7) :=
        (div_le_div_iff_of_pos_right hth).mpr (by linarith)
      have := mul_self_le_mul_self ht1 hd
      linarith
    · have hth : (0:ℚ) < 0.5 * w * 0.7 := by linarith
      have ht1 : 0 ≤ (lum1 - 0.5 * w * 0.3) / (0.5 * w * 0.7) :=
        le_of_lt (div_pos (by linarith) hth)
      have ht2 : (lum1 - 0.5 * w * 0.3) / (0.5 * w * 0.7) ≤ 1 :=
        (div_le_one hth).mpr (by linarith)
      nlinarith
  · unfold highlightMaskPixel
    dsimp only
    split_ifs with c1 c2 c3 c4 c5 c6 c7 c8 <;> try linarith
    · have hth : (0:ℚ) < (1 - 0.5 * w) * 0.1 := by linarith
      exact (div_le_one hth).mpr (by linarith)
    · have hth : (0:ℚ) < (1 - 0.5 * w) * 0.1 := by linarith
      exact (div_le_div_iff_of_pos_right hth).mpr (by linarith)
    · have hth : (0:ℚ) < (1 - 0.5 * w) * 0.1 := by linarith
      exact div_nonneg (by linarith) (by linarith)

/-- Witness for `mask_pixel_monotone` at `tonalWidth = 1/2`,
`lum1 = 1/4 ≤ lum2 = 3/4`. -/
theorem mask_pixel_monotone_witness :
    ((0:ℚ) ≤ 0.5 ∧ (0.5:ℚ) ≤ 1 ∧ (0:ℚ) ≤ 0.25 ∧ (0.25:ℚ) ≤ 0.75 ∧ (0.75:ℚ) ≤ 1) ∧
    (shadowMaskPixel 0.5 0.75 ≤ shadowMaskPixel 0.5 0.25 ∧
     highlightMaskPixel 0.5 0.25 ≤ highlightMaskPixel 0.5 0.75) :=
  ⟨by norm_num,
   mask_pixel_monotone 0.5 0.25 0.75 (by norm_num) (by norm_num) (by norm_num)
     (by norm_num) (by norm_num)⟩

namespace ShadowHighlightsFilter

theorem applyConvolution_px (input kernel : Mat) (y x : ℕ) :
    (applyConvolution input kernel).px y x =
      if 0 < convWeightSum input kernel y x then
        convPixSum input kernel y x / convWeightSum input kernel y x
      else input.px y x := rfl

theorem convPixSum_nonneg (input kernel : Mat)
    (hker : ∀ a b, 0 ≤ kernel.px a b)
    (hin : ∀ y x, y < input.rows → x < input.cols →
      0 ≤ input.px y x ∧ input.px y x ≤ 1) (y x : ℕ) :
    0 ≤ convPixSum input kernel y x := by
  unfold convPixSum
  dsimp only
  refine Finset.sum_nonneg fun ky _ => Finset.sum_nonneg fun kx _ => ?_
  split_ifs with h
  · obtain ⟨h1, h2, h3, h4⟩ := h
    refine mul_nonneg ?_ (hker _ _)
    exact (hin _ _ (by omega) (by omega)).1
  · exact le_refl 0

theorem convPixSum_le_weightSum (input kernel : Mat)
    (hker : ∀ a b, 0 ≤ kernel.px a b)
    (hin : ∀ y x, y < input.rows → x < input.cols →
      0 ≤ input.px y x ∧ input.px y x ≤ 1) (y x : ℕ) :
    convPixSum input kernel y x ≤ convWeightSum input kernel y x := by
  unfold convPixSum convWeightSum
  dsimp only
  refine Finset.sum_le_sum fun ky _ => Finset.sum_le_sum fun kx _ => ?_
  split_ifs with h
  · obtain ⟨h1, h2, h3, h4⟩ := h
    exact mul_le_of_le_one_left (hker _ _) (hin _ _ (by omega) (by omega)).2
  · exact le_refl 0

theorem applyConvolution_bounds (input kernel : Mat)
    (hker : ∀ a b, 0 ≤ kernel.px a b)
    (hin : ∀ y x, y < input.rows → x < input.cols →
      0 ≤ input.px y x ∧ input.px y x ≤ 1)
    {y x : ℕ} (hy : y < input.rows) (hx : x < input.cols) :
    0 ≤ (applyConvolution input kernel).px y x ∧
      (applyConvolution input kernel).px y x ≤ 1 := by
  rw [applyConvolution_px]
  split_ifs with hws
  · exact ⟨div_nonneg (convPixSum_nonneg input kernel hker hin y x) hws.le,
      (div_le_one hws).mpr (convPixSum_le_weightSum input kernel hker hin y x)⟩
  · exact hin y x hy hx

theorem createGaussianKernel_nonneg (ex : ℚ → ℚ) (hex : ∀ q, 0 ≤ ex q)
    (size : ℕ) (sigma : ℚ) :
    ∀ a b, 0 ≤ (createGaussianKernel ex size sigma).px a b := by
  intro a b
  unfold createGaussianKernel
  dsimp only [Mat.px]
  exact div_nonneg (hex _)
    (Finset.sum_nonneg fun u _ => Finset.sum_nonneg fun v _ => hex _)

theorem applyGaussianBlur_rows (ex : ℚ → ℚ) (input : Mat) (radius : ℚ) :
    (applyGaussianBlur ex input radius).rows = input.rows := by
  unfold applyGaussianBlur
  split_ifs <;> rfl

theorem applyGaussianBlur_cols (ex : ℚ → ℚ) (input : Mat) (radius : ℚ) :
    (applyGaussianBlur ex input radius).cols = input.cols := by
  unfold applyGaussianBlur
  split_ifs <;> rfl

theorem applyGaussianBlur_bounds (ex : ℚ → ℚ) (hex : ∀ q, 0 ≤ ex q)
    (input : Mat) (radius : ℚ)
    (hin : ∀ y x, y < input.rows → x < input.cols →
      0 ≤ input.px y x ∧ input.px y x ≤ 1) :
    ∀ y x, y < (applyGaussianBlur ex input radius).rows →
      x < (applyGaussianBlur ex input radius).cols →
      0 ≤ (applyGaussianBlur ex input radius).px y x ∧
        (applyGaussianBlur ex input radius).px y x ≤ 1 := by
  intro y x hy hx
  rw [applyGaussianBlur_rows] at hy
  rw [applyGaussianBlur_cols] at hx
  unfold applyGaussianBlur
  split_ifs with h
  · exact hin y x hy hx
  · exact applyConvolution_bounds input _
      (createGaussianKernel_nonneg ex hex _ _) hin hy hx

theorem applyFastGaussianBlur_eq (ex : ℚ → ℚ) (input : Mat) (radius : ℚ) :
    applyFastGaussianBlur ex input radius =
      if radius < 1 then input
      else if radius ≤ 8 then applyGaussianBlur ex input radius
      else if radius ≤ 20 then
        applyGaussianBlur ex (applyGaussianBlur ex input (radius / 2)) (radius / 2)
      else
        applyGaussianBlur ex
          (applyGaussianBlur ex (applyGaussianBlur ex input (radius / 3)) (radius / 3))
          (radius / 3) := by
  unfold applyFastGaussianBlur
  dsimp only
  split_ifs <;> rfl

theorem applyFastGaussianBlur_rows (ex : ℚ → ℚ) (input : Mat) (radius : ℚ) :
    (applyFastGaussianBlur ex input radius).rows = input.rows := by
  rw [applyFastGaussianBlur_eq]
  split_ifs <;> simp [applyGaussianBlur_rows]

theorem applyFastGaussianBlur_cols (ex : ℚ → ℚ) (input : Mat) (radius : ℚ) :
    (applyFastGaussianBlur ex input radius).cols = input.cols := by
  rw [applyFastGaussianBlur_eq]
  split_ifs <;> simp [applyGaussianBlur_cols]

theorem applyFastGaussianBlur_bounds (ex : ℚ → ℚ) (hex : ∀ q, 0 ≤ ex q)
    (input : Mat) (radius : ℚ)
    (hin : ∀ y x, y < input.rows → x < input.cols →
      0 ≤ input.px y x ∧ input.px y x ≤ 1) :
    ∀ y x, y < input.rows → x < input.cols →
      0 ≤ (applyFastGaussianBlur ex input radius).px y x ∧
        (applyFastGaussianBlur ex input radius).px y x ≤ 1 := by
  intro y x hy hx
  rw [applyFastGaussianBlur_eq]
  have step : ∀ (m : Mat) (r : ℚ),
      (∀ u v, u < m.rows → v < m.cols → 0 ≤ m.px u v ∧ m.px u v ≤ 1) →
      ∀ u v, u < m.rows → v < m.cols →
        0 ≤ (applyGaussianBlur ex m r).px u v ∧
          (applyGaussianBlur ex m r).px u v ≤ 1 := by
    intro m r hm u v hu hv
    exact applyGaussianBlur_bounds ex hex m r hm u v
      (by rw [applyGaussianBlur_rows]; exact hu)
      (by rw [applyGaussianBlur_cols]; exact hv)
  have step2 : ∀ (m : Mat) (r : ℚ),
      (∀ u v, u < m.rows → v < m.cols → 0 ≤ m.px u v ∧ m.px u v ≤ 1) →
      ∀ u v, u < m.rows → v < m.cols →
        0 ≤ (applyGaussianBlur ex (applyGaussianBlur ex m r) r).px u v ∧
          (applyGaussianBlur ex (applyGaussianBlur ex m r) r).px u v ≤ 1 := by
    intro m r hm u v hu hv
    refine step (applyGaussianBlur ex m r) r ?_ u v ?_ ?_
    · intro a b ha hb
      exact step m r hm a b
        (by rwa [applyGaussianBlur_rows] at ha) (by rwa [applyGaussianBlur_cols] at hb)
    · rwa [applyGaussianBlur_rows]
    · rwa [applyGaussianBlur_cols]
  split_ifs with h1 h2 h3
  · exact hin y x hy hx
  · exact step input radius hin y x hy hx
  · exact step2 input (radius / 2) hin y x hy hx
  · refine step _ (radius / 3) ?_ y x ?_ ?_
    · intro a b ha hb
      refine step2 input (radius / 3) hin a b ?_ ?_
      · rwa [applyGaussianBlur_rows, applyGaussianBlur_rows] at ha
      · rwa [applyGaussianBlur_cols, applyGaussianBlur_cols] at hb
    · rw [applyGaussianBlur_rows, applyGaussianBlur_rows]; exact hy
    · rw [applyGaussianBlur_cols, applyGaussianBlur_cols]; exact hx

theorem renorm_step_props (m : Mat)
    (hb : ∀ y x, y < m.rows → x < m.cols → 0 ≤ m.px y x ∧ m.px y x ≤ 1) :
    (∀ y x, y < m.rows → x < m.cols →
      0 ≤ (if 0 < matMax m then m.divScalar (matMax m) else m).px y x ∧
        (if 0 < matMax m then m.divScalar (matMax m) else m).px y x ≤ 1) ∧
    (matMax (if 0 < matMax m then m.divScalar (matMax m) else m) = 1 ∨
      ∀ y x, y < m.rows → x < m.cols →
        (if 0 < matMax m then m.divScalar (matMax m) else m).px y x = 0) := by
  split_ifs with hmax
  · constructor
    · intro y x hy hx
      have hle : m.px y x ≤ matMax m := le_listMax (mem_matVals m hy hx)
      have h0 : 0 ≤ m.px y x := (hb y x hy hx).1
      exact ⟨div_nonneg h0 hmax.le, (div_le_one hmax).mpr hle⟩
    · left
      have : matMax (m.divScalar (matMax m)) = matMax m / matMax m := by
        have hmax2 : 0 < listMax (matVals m) := hmax
        unfold matMax
        rw [matVals_divScalar, listMax_map_div _ _ hmax2]
      rw [this, div_self (ne_of_gt hmax)]
  · constructor
    · exact hb
    · right
      intro y x hy hx
      have hle : m.px y x ≤ matMax m := le_listMax (mem_matVals m hy hx)
      have h0 : 0 ≤ m.px y x := (hb y x hy hx).1
      linarith [not_lt.mp hmax]

/-- The shared finishing step of `createAdvancedShadowMask` and
`createAdvancedHighlightMask` (optional fast blur at `min(blurRadius, 20)`,
then in-place renormalization by the positive maximum); it is definitionally
equal to the tails of the two mask constructions and is introduced only to
state their shared lemmas once. -/
def maskFinish (f : ShadowHighlightsFilter) (ex : ℚ → ℚ) (pre : Mat) : Mat :=
  let smoothMask :=
    if 0.1 < f.blurRadius then applyFastGaussianBlur ex pre (min f.blurRadius 20)
    else pre
  let maxVal := matMax smoothMask
  if 0 < maxVal then smoothMask.divScalar maxVal else smoothMask

theorem mask_core_props (f : ShadowHighlightsFilter) (ex : ℚ → ℚ)
    (hex : ∀ q, 0 ≤ ex q) (pre : Mat)
    (hb : ∀ y x, y < pre.rows → x < pre.cols → 0 ≤ pre.px y x ∧ pre.px y x ≤ 1) :
    ((maskFinish f ex pre).rows = pre.rows ∧ (maskFinish f ex pre).cols = pre.cols) ∧
    (∀ y x, y < pre.rows → x < pre.cols →
      0 ≤ (maskFinish f ex pre).px y x ∧ (maskFinish f ex pre).px y x ≤ 1) ∧
    (matMax (maskFinish f ex pre) = 1 ∨
      ∀ y x, y < pre.rows → x < pre.cols → (maskFinish f ex pre).px y x = 0) := by
  unfold maskFinish
  dsimp only
  set S := if 0.1 < f.blurRadius then applyFastGaussianBlur ex pre (min f.blurRadius 20) else pre
    with hS
  have hdims : S.rows = pre.rows ∧ S.cols = pre.cols := by
    rw [hS]
    split_ifs
    · exact ⟨applyFastGaussianBlur_rows ex pre _, applyFastGaussianBlur_cols ex pre _⟩
    · exact ⟨rfl, rfl⟩
  have hSb : ∀ y x, y < S.rows → x < S.cols → 0 ≤ S.px y x ∧ S.px y x ≤ 1 := by
    intro y x hy hx
    rw [hdims.1] at hy
    rw [hdims.2] at hx
    rw [hS]
    split_ifs with hbr
    · exact applyFastGaussianBlur_bounds ex hex pre _ hb y x hy hx
    · exact hb y x hy hx
  have h := renorm_step_props S hSb
  refine ⟨?_, ?_, ?_⟩
  · split_ifs with hmax
    · exact hdims
    · exact hdims
  · intro y x hy hx
    exact h.1 y x (by rw [hdims.1]; exact hy) (by rw [hdims.2]; exact hx)
  · rcases h.2 with h2 | h2
    · exact Or.inl h2
    · exact Or.inr fun y x hy hx =>
        h2 y x (by rw [hdims.1]; exact hy) (by rw [hdims.2]; exact hx)

/-- C3: for any luminance plane with in-range values in `[0,1]` and any
tonalWidth in `[0,1]` (any filter configuration and any nonnegative model of
`expf`), every in-range value of the constructed shadow mask and highlight
mask lies in `[0,1]`, the masks keep the luminance plane's dimensions, and
after the final normalization pass each mask's maximum value is exactly 1
unless the mask is uniformly zero (the normalization being skipped exactly
when the blurred mask's maximum is not positive, in which case the mask is
left unmodified and all its in-range values are 0). -/
theorem mask_bounds_and_normalization (f : ShadowHighlightsFilter)
    (ex : ℚ → ℚ) (L : Mat)
    (hex : ∀ q, 0 ≤ ex q)
    (hw0 : 0 ≤ f.tonalWidth) (hw1 : f.tonalWidth ≤ 1)
    (hL : ∀ y x, y < L.rows → x < L.cols → 0 ≤ L.px y x ∧ L.px y x ≤ 1) :
    ((f.createAdvancedShadowMask ex L).rows = L.rows ∧
     (f.createAdvancedShadowMask ex L).cols = L.cols ∧
     (f.createAdvancedHighlightMask ex L).rows = L.rows ∧
     (f.createAdvancedHighlightMask ex L).cols = L.cols) ∧
    (∀ y x, y < L.rows → x < L.cols →
      (0 ≤ (f.createAdvancedShadowMask ex L).px y x ∧
        (f.createAdvancedShadowMask ex L).px y x ≤ 1) ∧
      (0 ≤ (f.createAdvancedHighlightMask ex L).px y x ∧
        (f.createAdvancedHighlightMask ex L).px y x ≤ 1)) ∧
    (matMax (f.createAdvancedShadowMask ex L) = 1 ∨
      ∀ y x, y < L.rows → x < L.cols → (f.createAdvancedShadowMask ex L).px y x = 0) ∧
    (matMax (f.createAdvancedHighlightMask ex L) = 1 ∨
      ∀ y x, y < L.rows → x < L.cols → (f.createAdvancedHighlightMask ex L).px y x = 0) := by
  have hs := mask_core_props f ex hex
    ⟨L.rows, L.cols, 1, fun y x _ => shadowMaskPixel f.tonalWidth (L.px y x)⟩
    (fun y x _ _ => shadowMaskPixel_mem f.tonalWidth (L.px y x))
  have hh := mask_core_props f ex hex
    ⟨L.rows, L.cols, 1, fun y x _ => highlightMaskPixel f.tonalWidth (L.px y x)⟩
    (fun y x _ _ => highlightMaskPixel_mem f.tonalWidth (L.px y x))
  have hseq : f.createAdvancedShadowMask ex L = maskFinish f ex
      ⟨L.rows, L.cols, 1, fun y x _ => shadowMaskPixel f.tonalWidth (L.px y x)⟩ := rfl
  have hheq : f.createAdvancedHighlightMask ex L = maskFinish f ex
      ⟨L.rows, L.cols, 1, fun y x _ => highlightMaskPixel f.tonalWidth (L.px y x)⟩ := rfl
  rw [hseq, hheq]
  exact ⟨⟨hs.1.1, hs.1.2, hh.1.1, hh.1.2⟩,
    fun y x hy hx => ⟨hs.2.1 y x hy hx, hh.2.1 y x hy hx⟩,
    hs.2.2, hh.2.2⟩

/-- Witness for `mask_bounds_and_normalization` at a concrete filter, the
constant-1 model of `expf`, and a concrete 1×1 luminance plane of value
`1/2`. -/
theorem mask_bounds_and_normalization_witness :
    ((0:ℚ) ≤ (⟨0.3, 0.3, 0.5, 15⟩ : ShadowHighlightsFilter).tonalWidth ∧
      (⟨0.3, 0.3, 0.5, 15⟩ : ShadowHighlightsFilter).tonalWidth ≤ 1) ∧
    (∀ y x, y < (1:ℕ) → x < (1:ℕ) →
      0 ≤ ((⟨0.3, 0.3, 0.5, 15⟩ : ShadowHighlightsFilter).createAdvancedShadowMask
            (fun _ => 1) ⟨1, 1, 1, fun _ _ _ => 0.5⟩).px y x ∧
        ((⟨0.3, 0.3, 0.5, 15⟩ : ShadowHighlightsFilter).createAdvancedShadowMask
            (fun _ => 1) ⟨1, 1, 1, fun _ _ _ => 0.5⟩).px y x ≤ 1) := by
  refine ⟨by norm_num, ?_⟩
  intro y x hy hx
  exact ((mask_bounds_and_normalization ⟨0.3, 0.3, 0.5, 15⟩ (fun _ => 1)
    ⟨1, 1, 1, fun _ _ _ => 0.5⟩ (fun q => by norm_num) (by norm_num) (by norm_num)
    (fun u v _ _ => by norm_num [Mat.px])).2.1 y x hy hx).1

/-- C6: in `applyConvolution` the output pixel is the sum of in-bounds
pixel·weight samples divided by only the in-bounds weight sum (out-of-bounds
samples are skipped, not zero-padded, by the very definition of
`convPixSum`/`convWeightSum`); for every in-range pixel of a plane of size
at least 1×1 and any centered kernel whose window entries are positive, the
in-bounds weight sum is strictly positive — the window always contains the
center sample — so the zero-weight fallback branch, which would pass the
original pixel value through unchanged, is never taken. -/
theorem convolution_weight_sum_positive (input kernel : Mat) (y x : ℕ)
    (hy : y < input.rows) (hx : x < input.cols)
    (hker : ∀ a b, a < 2 * (kernel.rows / 2) + 1 → b < 2 * (kernel.rows / 2) + 1 →
      0 < kernel.px a b) :
    0 < convWeightSum input kernel y x ∧
      (applyConvolution input kernel).px y x =
        convPixSum input kernel y x / convWeightSum input kernel y x := by
  have hpos : 0 < convWeightSum input kernel y x := by
    unfold convWeightSum
    dsimp only
    apply Finset.sum_pos'
    · intro ky hky
      refine Finset.sum_nonneg fun kx hkx => ?_
      split_ifs with h
      · exact (hker ky kx (Finset.mem_range.mp hky) (Finset.mem_range.mp hkx)).le
      · exact le_refl 0
    · refine ⟨kernel.rows / 2, Finset.mem_range.mpr (by omega), ?_⟩
      apply Finset.sum_pos'
      · intro kx hkx
        split_ifs with h
        · exact (hker _ kx (by omega) (Finset.mem_range.mp hkx)).le
        · exact le_refl 0
      · refine ⟨kernel.rows / 2, Finset.mem_range.mpr (by omega), ?_⟩
        rw [if_pos ⟨by omega, by omega, by omega, by omega⟩]
        exact hker _ _ (by omega) (by omega)
  exact ⟨hpos, by rw [applyConvolution_px, if_pos hpos]⟩

/-- Witness for `convolution_weight_sum_positive` at a concrete 1×1 plane
and the constant-1 3×3 kernel. -/
theorem convolution_weight_sum_positive_witness :
    ((0:ℕ) < 1 ∧ (0:ℕ) < 1) ∧
    (0 < convWeightSum ⟨1, 1, 1, fun _ _ _ => 0⟩ ⟨3, 3, 1, fun _ _ _ => 1⟩ 0 0 ∧
      (applyConvolution ⟨1, 1, 1, fun _ _ _ => 0⟩ ⟨3, 3, 1, fun _ _ _ => 1⟩).px 0 0 =
        convPixSum ⟨1, 1, 1, fun _ _ _ => 0⟩ ⟨3, 3, 1, fun _ _ _ => 1⟩ 0 0 /
          convWeightSum ⟨1, 1, 1, fun _ _ _ => 0⟩ ⟨3, 3, 1, fun _ _ _ => 1⟩ 0 0) :=
  ⟨⟨Nat.one_pos, Nat.one_pos⟩,
   convolution_weight_sum_positive ⟨1, 1, 1, fun _ _ _ => 0⟩ ⟨3, 3, 1, fun _ _ _ => 1⟩
     0 0 Nat.one_pos Nat.one_pos (fun a b _ _ => one_pos)⟩

/-- C7: `applyFastGaussianBlur` returns the input unchanged for radius < 1,
equals one `applyGaussianBlur` pass at the full radius for 1 ≤ radius ≤ 8,
two successive passes at radius/2 (each pass's output feeding the next) for
8 < radius ≤ 20, and three successive passes at radius/3 for radius > 20. -/
theorem fast_blur_pass_structure (ex : ℚ → ℚ) (input : Mat) (radius : ℚ) :
    applyFastGaussianBlur ex input radius =
      if radius < 1 then input
      else if radius ≤ 8 then applyGaussianBlur ex input radius
      else if radius ≤ 20 then
        applyGaussianBlur ex (applyGaussianBlur ex input (radius / 2)) (radius / 2)
      else
        applyGaussianBlur ex
          (applyGaussianBlur ex (applyGaussianBlur ex input (radius / 3)) (radius / 3))
          (radius / 3) :=
  applyFastGaussianBlur_eq ex input radius

end ShadowHighlightsFilter

theorem saturate_cast_u8 (v : ℚ) :
    ∃ n : ℕ, n ≤ 255 ∧ ColorConverter.saturate_cast v = (n : ℚ) := by
  unfold ColorConverter.saturate_cast
  dsimp only
  split_ifs with h1 h2
  · exact ⟨0, by norm_num, by norm_num⟩
  · exact ⟨255, le_refl _, by norm_num⟩
  · refine ⟨(truncToInt v).toNat, by omega, ?_⟩
    exact_mod_cast congrArg (fun z : ℤ => (z : ℚ))
      (Int.toNat_of_nonneg (not_lt.mp h1)).symm

theorem Lab2BGR_u8 (pw : ℚ → ℚ → ℚ) (lab : Mat) :
    ∀ y x c, ∃ n : ℕ, n ≤ 255 ∧ (ColorConverter.Lab2BGR pw lab).data y x c = (n : ℚ) := by
  intro y x c
  match c with
  | 0 => exact saturate_cast_u8 _
  | 1 => exact saturate_cast_u8 _
  | 2 => exact saturate_cast_u8 _
  | n + 3 => exact ⟨0, by norm_num, rfl⟩

theorem apply_ok_of_not_empty (f : ShadowHighlightsFilter) (pw : ℚ → ℚ → ℚ)
    (ex : ℚ → ℚ) (img : Mat) (h : img.empty = false) :
    ∃ res : Mat, f.apply pw ex img = .ok res ∧
      res.rows = img.rows ∧ res.cols = img.cols ∧ res.channels = 3 ∧
      ∀ y x c, ∃ n : ℕ, n ≤ 255 ∧ res.data y x c = (n : ℚ) := by
  have key : f.apply pw ex img = .ok
      (let labImage := ColorConverter.BGR2Lab pw img
       let p0 : Mat := ⟨labImage.rows, labImage.cols, 1, fun y x _ => labImage.data y x 0⟩
       let p1 : Mat := ⟨labImage.rows, labImage.cols, 1, fun y x _ => labImage.data y x 1⟩
       let p2 : Mat := ⟨labImage.rows, labImage.cols, 1, fun y x _ => labImage.data y x 2⟩
       let lumF := ShadowHighlightsFilter.normalizeLuminance p0
       let corrected := f.applyAdvancedCorrection lumF
         (f.createAdvancedShadowMask ex lumF) (f.createAdvancedHighlightMask ex lumF)
       let d := ShadowHighlightsFilter.denormalizeLuminance corrected
       ColorConverter.Lab2BGR pw
         ⟨d.rows, d.cols, 3, fun y x c => (([d, p1, p2] : List Mat).getD c Mat.matZero).px y x⟩) := by
    unfold ShadowHighlightsFilter.apply
    rw [if_neg (by simp [h])]
    rfl
  exact ⟨_, key, rfl, rfl, rfl, Lab2BGR_u8 pw _⟩

/-- C4: `ShadowHighlightsFilter::apply` raises `InvalidInput` exactly when
the input image is empty (for a non-empty input, the split always receives
the 3-channel output of `BGR2Lab` and the merge always receives exactly 3
planes, so the pipeline completes with a result);
`LabImageProcessor::splitLab` raises `InvalidInput` exactly when the input's
channel count is not 3; and `LabImageProcessor::mergeLab` raises
`InvalidInput` exactly when the number of planes is not 3.  In the `Except`
model an error excludes any result by construction, so each error is raised
before any partial result is produced. -/
theorem error_conditions :
    (∀ (f : ShadowHighlightsFilter) (pw : ℚ → ℚ → ℚ) (ex : ℚ → ℚ) (img : Mat),
      f.apply pw ex img = .error .invalidInput ↔ img.empty = true) ∧
    (∀ m : Mat, LabImageProcessor.splitLab m = .error .invalidInput ↔ m.channels ≠ 3) ∧
    (∀ l : List Mat, LabImageProcessor.mergeLab l = .error .invalidInput ↔ l.length ≠ 3) := by
  refine ⟨?_, ?_, ?_⟩
  · intro f pw ex img
    constructor
    · intro h
      by_contra hne
      have h2 : img.empty = false := by
        cases hemp : img.empty
        · rfl
        · exact absurd hemp hne
      obtain ⟨res, hres, _⟩ := apply_ok_of_not_empty f pw ex img h2
      rw [hres] at h
      exact Except.noConfusion h
    · intro h
      unfold ShadowHighlightsFilter.apply
      rw [if_pos (by simp [h])]
  · intro m
    unfold LabImageProcessor.splitLab
    split_ifs with h
    · simp [h]
    · simp [h]
  · intro l
    unfold LabImageProcessor.mergeLab
    split_ifs with h
    · simp [h]
    · simp [h]

/-- C8 (the code evaluated at the failing input): `mergeLab` called with
exactly 3 single-channel planes of mismatched dimensions (2×2, 1×1, 1×1)
does not fail; the only check performed is the plane count, and it returns
a merged image sized as the first plane — contrary to the function's own
documentation comment, which promises `std::invalid_argument` when the
planes have differing sizes (in C++ this call reads the undersized planes
out of bounds). -/
theorem mergeLab_no_size_check :
    LabImageProcessor.mergeLab
        [⟨2, 2, 1, fun _ _ _ => 1⟩, ⟨1, 1, 1, fun _ _ _ => 2⟩, ⟨1, 1, 1, fun _ _ _ => 3⟩]
      = .ok ⟨2, 2, 3, fun y x c =>
          (([⟨2, 2, 1, fun _ _ _ => 1⟩, ⟨1, 1, 1, fun _ _ _ => 2⟩,
             ⟨1, 1, 1, fun _ _ _ => 3⟩] : List Mat).getD c Mat.matZero).px y x⟩ := rfl

/-- C10: for every non-empty input image and every filter configuration (and
any model of the transcendental library functions), `apply` succeeds and
returns a 3-channel image with the same number of rows and columns as the
input, every channel value of which is an 8-bit integer value in `[0,255]`
produced by `saturate_cast`. -/
theorem apply_preserves_dimensions (f : ShadowHighlightsFilter)
    (pw : ℚ → ℚ → ℚ) (ex : ℚ → ℚ) (img : Mat) (h : img.empty = false) :
    ∃ res : Mat, f.apply pw ex img = .ok res ∧
      res.rows = img.rows ∧ res.cols = img.cols ∧ res.channels = 3 ∧
      ∀ y x c, ∃ n : ℕ, n ≤ 255 ∧ res.data y x c = (n : ℚ) :=
  apply_ok_of_not_empty f pw ex img h

/-- Witness for `apply_preserves_dimensions` at a concrete 1×1 black image,
a concrete filter and concrete models of `powf`/`expf`. -/
theorem apply_preserves_dimensions_witness :
    (Mat.empty ⟨1, 1, 3, fun _ _ _ => 0⟩ = false) ∧
    (∃ res : Mat,
      ShadowHighlightsFilter.apply ⟨0.3, 0.3, 0.5, 15⟩ (fun b _ => b) (fun _ => 1)
          ⟨1, 1, 3, fun _ _ _ => 0⟩ = .ok res ∧
        res.rows = (⟨1, 1, 3, fun _ _ _ => 0⟩ : Mat).rows ∧
        res.cols = (⟨1, 1, 3, fun _ _ _ => 0⟩ : Mat).cols ∧
        res.channels = 3 ∧
        ∀ y x c, ∃ n : ℕ, n ≤ 255 ∧ res.data y x c = (n : ℚ)) :=
  ⟨rfl, apply_preserves_dimensions ⟨0.3, 0.3, 0.5, 15⟩ (fun b _ => b) (fun _ => 1)
    ⟨1, 1, 3, fun _ _ _ => 0⟩ rfl⟩
